import Mathlib

/-!
Shallow embedding of the number-filtering pipeline
(`src/number_pipeline.cpp` and the registry variant in
`src/unnamed/part_000`): reader, filters, filter factory, observers,
processor and the two `main` entry points, together with theorems about
the claims of the specification.

Strings are modelled as Lean `String`/`List Char`; C++ `int` is modelled
as `Int` with the 32-bit range check made explicit where stream
extraction performs it.
-/

namespace NumberPipeline

/-- Whitespace characters skipped by C++ formatted extraction in the
default "C" locale (`isspace`): space, tab, newline, vertical tab,
form feed, carriage return. -/
def isSpaceChar (c : Char) : Bool :=
  c = ' ' || c = '\t' || c = '\n' || c = '\x0b' || c = '\x0c' || c = '\r'

/-- Decimal digit. -/
def isDigitChar (c : Char) : Bool :=
  48 ≤ c.toNat && c.toNat ≤ 57

/-- Numeric value of a decimal digit character. -/
def digitVal (c : Char) : Nat := c.toNat - 48

/-- Value of a run of decimal digits, most significant first. -/
def digitsVal (ds : List Char) : Nat :=
  ds.foldl (fun acc c => acc * 10 + digitVal c) 0

/-- Largest value of a C++ 32-bit `int`. -/
def INT_MAX : Int := 2147483647

/-- Smallest value of a C++ 32-bit `int`. -/
def INT_MIN : Int := -2147483648

/-- The optional single sign consumed by `operator>>`: `true` means the
value is negated. -/
def splitSign (cs : List Char) : Bool × List Char :=
  match cs with
  | [] => (false, [])
  | c :: r =>
    if c = '-' then (true, r)
    else if c = '+' then (false, r)
    else (false, c :: r)

/-- Model of `std::istream >> (int&)` on the remaining character
sequence: skip whitespace, consume one optional sign, consume the
maximal run of decimal digits; extraction fails when no digit is
consumed or the value does not fit in a 32-bit `int` (C++11 sets
`failbit` on out-of-range values). On success it returns the value and
the unconsumed characters. -/
def extractInt (cs : List Char) : Option (Int × List Char) :=
  let p := splitSign (cs.dropWhile isSpaceChar)
  let ds := p.2.takeWhile isDigitChar
  let rest := p.2.dropWhile isDigitChar
  if ds = [] then none
  else
    let v : Int := if p.1 then -(digitsVal ds : Int) else (digitsVal ds : Int)
    if INT_MIN ≤ v ∧ v ≤ INT_MAX then some (v, rest) else none

instance {α β : Type} [DecidableEq α] [DecidableEq β] : DecidableEq (Except α β) :=
  fun a b =>
    match a, b with
    | .ok x, .ok y =>
      if h : x = y then .isTrue (by rw [h]) else .isFalse (by simp [h])
    | .error x, .error y =>
      if h : x = y then .isTrue (by rw [h]) else .isFalse (by simp [h])
    | .ok _, .error _ => .isFalse (by simp)
    | .error _, .ok _ => .isFalse (by simp)

/-- The three filter shapes of the pipeline (`EvenFilter`, `OddFilter`,
`GreaterThanFilter`). -/
inductive NumberFilter where
  | even : NumberFilter
  | odd : NumberFilter
  | gt : Int → NumberFilter
deriving DecidableEq

/-- `INumberFilter::keep`.  `EvenFilter` keeps `number % 2 == 0`,
`OddFilter` keeps `number % 2 != 0` (C++ `%` is the truncating-division
remainder, hence `Int.tmod`), `GreaterThanFilter` keeps
`number > threshold`. -/
def keep : NumberFilter → Int → Bool
  | .even, n => decide (Int.tmod n 2 = 0)
  | .odd, n => decide (Int.tmod n 2 ≠ 0)
  | .gt t, n => decide (t < n)

/-- `FilterFactory::create_filter` of `number_pipeline.cpp`: an
if-chain testing `filter_str == "EVEN"`, `filter_str == "ODD"`,
`filter_str.rfind("GT", 0) == 0`; the GT branch extracts an `int` from
`filter_str.substr(2)` with `istringstream`.  Errors carry the
`what()` message of the thrown `std::invalid_argument`. -/
def create_filter (s : String) : Except String NumberFilter :=
  if s = "EVEN" then .ok .even
  else if s = "ODD" then .ok .odd
  else if "GT".toList.isPrefixOf s.toList then
    match extractInt (s.toList.drop 2) with
    | some (t, _) => .ok (.gt t)
    | none => .error "Invalid GT filter format"
  else .error ("Unknown filter: " ++ s)

/-- `FilterFactory::create_filter` of `src/unnamed/part_000`: iterates
the `std::map` registry in key order (`"EVEN" < "GT" < "ODD"`) and uses
the first key that is a prefix of the token (`rfind(key, 0) == 0`). -/
def create_filter_registry (s : String) : Except String NumberFilter :=
  if "EVEN".toList.isPrefixOf s.toList then .ok .even
  else if "GT".toList.isPrefixOf s.toList then
    match extractInt (s.toList.drop 2) with
    | some (t, _) => .ok (.gt t)
    | none => .error ("Invalid GT filter format: " ++ s)
  else if "ODD".toList.isPrefixOf s.toList then .ok .odd
  else .error ("Unknown filter: " ++ s)

/-- The loop `while (file >> num) numbers.push_back(num);` of
`FileNumberReader::read_numbers`, written with explicit fuel (each
successful extraction consumes at least one character, so
`length + 1` units of fuel always suffice). -/
def readLoop : Nat → List Char → List Int
  | 0, _ => []
  | fuel + 1, cs =>
    match extractInt cs with
    | none => []
    | some (n, rest) => n :: readLoop fuel rest

/-- The reading loop on a character sequence, with the fuel
instantiated so that it never runs out. -/
def readChars (cs : List Char) : List Int := readLoop (cs.length + 1) cs

/-- `FileNumberReader::read_numbers` applied to the content of an
openable source: repeated formatted extraction until one fails. -/
def read_numbers (content : String) : List Int := readChars content.toList

/-- An observer callback, as an event: `INumberObserver::on_number`
with its value, or `INumberObserver::on_finished`. -/
inductive ObsEvent where
  | num : Int → ObsEvent
  | finished : ObsEvent
deriving DecidableEq

/-- One broadcast `for (auto* obs : observers) ...` over `k` registered
observers, identified by their registration index. -/
def notifyAll (k : Nat) (e : ObsEvent) : List (Nat × ObsEvent) :=
  (List.range k).map (fun i => (i, e))

/-- Trace semantics of `NumberProcessor::run` after the read: for each
number in arrival order, if the filter keeps it, `on_number` is sent to
every observer in registration order; after the loop `on_finished` is
sent to every observer in registration order. -/
def runTrace (keepf : Int → Bool) (numbers : List Int) (k : Nat) :
    List (Nat × ObsEvent) :=
  (numbers.flatMap fun n => if keepf n then notifyAll k (.num n) else [])
    ++ notifyAll k .finished

/-- Observable state of one run of the concrete pipeline: the lines on
standard output and `CountObserver`'s counter. -/
structure PipeState where
  stdoutLines : List String
  count : Int
deriving DecidableEq

/-- `PrintObserver::on_number`: prints the value on its own line. -/
def print_on_number (n : Int) (st : PipeState) : PipeState :=
  { st with stdoutLines := st.stdoutLines ++ [toString n] }

/-- `CountObserver::on_number`: increments the counter. -/
def count_on_number (st : PipeState) : PipeState :=
  { st with count := st.count + 1 }

/-- `PrintObserver::on_finished`: a no-op. -/
def print_on_finished (st : PipeState) : PipeState := st

/-- `CountObserver::on_finished`: prints the summary line. -/
def count_on_finished (st : PipeState) : PipeState :=
  { st with
    stdoutLines :=
      st.stdoutLines ++ ["Total numbers passed filter: " ++ toString st.count] }

/-- The body of the processor's loop for one number, with the observer
vector `{ &printObserver, &countObserver }` of `main`: when the filter
keeps the number, both observers receive `on_number` in registration
order. -/
def processNumber (keepf : Int → Bool) (st : PipeState) (n : Int) : PipeState :=
  if keepf n then count_on_number (print_on_number n st) else st

/-- `NumberProcessor::run` after the read, over the observer vector of
`main`: the number loop, then `on_finished` to both observers in
registration order. -/
def processor_run (keepf : Int → Bool) (numbers : List Int) (st : PipeState) :
    PipeState :=
  count_on_finished (print_on_finished (numbers.foldl (processNumber keepf) st))

/-- `main` of `number_pipeline.cpp`, called with exactly two CLI
arguments; `file` is `none` when the source cannot be opened and
`some content` otherwise.  Returns (exit code, stdout lines, stderr
lines).  Its `FileNumberReader` prints a diagnostic on an unopenable
source and returns the empty vector, so the run continues. -/
def main_np (filter_str filename : String) (file : Option String) :
    Nat × List String × List String :=
  match create_filter filter_str with
  | .error msg => (2, [], ["Error: " ++ msg])
  | .ok f =>
    match file with
    | none =>
      let st := processor_run (keep f) [] ⟨[], 0⟩
      (0, st.stdoutLines, ["Error: Cannot open file " ++ filename])
    | some content =>
      let st := processor_run (keep f) (read_numbers content) ⟨[], 0⟩
      (0, st.stdoutLines, [])

/-- `main` of `src/unnamed/part_000`, called with exactly two CLI
arguments.  Its `FileNumberReader` throws `std::runtime_error` on an
unopenable source, which `main` catches before any observer output. -/
def main_registry (filter_str filename : String) (file : Option String) :
    Nat × List String × List String :=
  match create_filter_registry filter_str with
  | .error msg => (2, [], ["Error: " ++ msg])
  | .ok f =>
    match file with
    | none => (2, [], ["Error: " ++ ("Cannot open file: " ++ filename)])
    | some content =>
      let st := processor_run (keep f) (read_numbers content) ⟨[], 0⟩
      (0, st.stdoutLines, [])

/-- The processor's state machine of the specification
(`NotStarted → Running → Finished`), over the observer vector of
`main`: `pending` is the unprocessed suffix of the read sequence. -/
structure ProcState where
  pending : List Int
  outLines : List String
  count : Int
  finished : Bool
deriving DecidableEq

/-- One step of the processor: keep or skip the next number while
running, or deliver `on_finished` (print's no-op, then count's summary)
once the sequence is exhausted. -/
inductive ProcStep (keepf : Int → Bool) : ProcState → ProcState → Prop
  | keep_num {n : Int} {rest : List Int} {out : List String} {c : Int} :
      keepf n = true →
      ProcStep keepf ⟨n :: rest, out, c, false⟩
        ⟨rest, out ++ [toString n], c + 1, false⟩
  | skip_num {n : Int} {rest : List Int} {out : List String} {c : Int} :
      keepf n = false →
      ProcStep keepf ⟨n :: rest, out, c, false⟩ ⟨rest, out, c, false⟩
  | finish {out : List String} {c : Int} :
      ProcStep keepf ⟨[], out, c, false⟩
        ⟨[], out ++ ["Total numbers passed filter: " ++ toString c], c, true⟩

/-- The initial state of a run over a read sequence. -/
def initState (numbers : List Int) : ProcState := ⟨numbers, [], 0, false⟩

example : extractInt "5abc".toList = some (5, "abc".toList) := by decide
example : extractInt "  -7".toList = some (-7, []) := by decide
example : extractInt "abc".toList = none := by decide
example : extractInt "+".toList = none := by decide
example : extractInt "2147483647".toList = some (2147483647, []) := by decide
example : extractInt "2147483648".toList = none := by decide
example : create_filter "EVEN" = .ok .even := by decide
example : create_filter "GT-5" = .ok (.gt (-5)) := by decide
example : create_filter "GT5abc" = .ok (.gt 5) := by decide
example : create_filter "GTabc" = .error "Invalid GT filter format" := by decide
example : create_filter "XYZ" = .error "Unknown filter: XYZ" := by decide
example : create_filter "EVENX" = .error "Unknown filter: EVENX" := by decide
example : create_filter_registry "EVENX" = .ok .even := by decide
example : read_numbers "3 4 5 6 7 8" = [3, 4, 5, 6, 7, 8] := by decide
example : read_numbers "1 2 3abc 4" = [1, 2, 3] := by decide
example : read_numbers "12-34" = [12, -34] := by decide
example : read_numbers "  " = [] := by decide
example :
    main_np "EVEN" "numbers.txt" (some "3 4 5 6 7 8")
      = (0, ["4", "6", "8", "Total numbers passed filter: 3"], []) := by decide
example :
    main_np "EVEN" "numbers.txt" none
      = (0, ["Total numbers passed filter: 0"],
         ["Error: Cannot open file numbers.txt"]) := by decide
example :
    main_registry "EVEN" "numbers.txt" none
      = (2, [], ["Error: Cannot open file: numbers.txt"]) := by decide

/-! Character-class facts used by the extraction lemmas. -/

theorem not_space_of_digit {c : Char} (h : isDigitChar c = true) :
    isSpaceChar c = false := by
  by_contra hc
  rw [Bool.not_eq_false] at hc
  simp only [isSpaceChar, Bool.or_eq_true, decide_eq_true_eq] at hc
  rcases hc with ((((h1 | h1) | h1) | h1) | h1) | h1 <;> subst h1 <;>
    exact absurd h (by decide)

theorem not_digit_of_space {c : Char} (h : isSpaceChar c = true) :
    isDigitChar c = false := by
  cases hd : isDigitChar c with
  | false => rfl
  | true => rw [not_space_of_digit hd] at h; exact absurd h (by decide)

theorem digit_ne_minus {c : Char} (h : isDigitChar c = true) : c ≠ '-' := by
  intro he; subst he; exact absurd h (by decide)

theorem digit_ne_plus {c : Char} (h : isDigitChar c = true) : c ≠ '+' := by
  intro he; subst he; exact absurd h (by decide)

/-! List lemmas about `takeWhile`/`dropWhile` over decomposed inputs. -/

theorem dropWhile_append_all {p : Char → Bool} :
    ∀ {w : List Char}, (∀ c ∈ w, p c = true) →
      ∀ x : List Char, List.dropWhile p (w ++ x) = List.dropWhile p x := by
  intro w
  induction w with
  | nil => intro _ x; rfl
  | cons a t ih =>
    intro h x
    have ha : p a = true := h a (by simp)
    rw [List.cons_append, List.dropWhile_cons, if_pos ha]
    exact ih (fun c hc => h c (by simp [hc])) x

theorem dropWhile_cons_neg {p : Char → Bool} {a : Char} {l : List Char}
    (h : p a = false) : List.dropWhile p (a :: l) = a :: l := by
  rw [List.dropWhile_cons, if_neg (by simp [h])]

theorem dropWhile_eq_nil_all {p : Char → Bool} {w : List Char}
    (h : ∀ c ∈ w, p c = true) : List.dropWhile p w = [] := by
  have := dropWhile_append_all h []
  simpa using this

theorem takeWhile_append_all {p : Char → Bool} :
    ∀ {ds : List Char}, (∀ c ∈ ds, p c = true) →
      ∀ {rest : List Char}, (∀ c cs2, rest = c :: cs2 → p c = false) →
      List.takeWhile p (ds ++ rest) = ds := by
  intro ds
  induction ds with
  | nil =>
    intro _ rest hrest
    cases rest with
    | nil => rfl
    | cons c cs2 =>
      rw [List.nil_append, List.takeWhile_cons, if_neg (by simp [hrest c cs2 rfl])]
  | cons a t ih =>
    intro h rest hrest
    have ha : p a = true := h a (by simp)
    rw [List.cons_append, List.takeWhile_cons, if_pos ha,
      ih (fun c hc => h c (by simp [hc])) hrest]

theorem dropWhile_append_all_neg {p : Char → Bool} :
    ∀ {ds : List Char}, (∀ c ∈ ds, p c = true) →
      ∀ {rest : List Char}, (∀ c cs2, rest = c :: cs2 → p c = false) →
      List.dropWhile p (ds ++ rest) = rest := by
  intro ds
  induction ds with
  | nil =>
    intro _ rest hrest
    cases rest with
    | nil => rfl
    | cons c cs2 => exact dropWhile_cons_neg (hrest c cs2 rfl)
  | cons a t ih =>
    intro h rest hrest
    have ha : p a = true := h a (by simp)
    rw [List.cons_append, List.dropWhile_cons, if_pos ha]
    exact ih (fun c hc => h c (by simp [hc])) hrest

theorem dropWhile_head_false {p : Char → Bool} :
    ∀ {l : List Char} {c : Char} {cs2 : List Char},
      List.dropWhile p l = c :: cs2 → p c = false := by
  intro l
  induction l with
  | nil => intro c cs2 h; exact absurd h (by simp [List.dropWhile])
  | cons a t ih =>
    intro c cs2 h
    cases hpa : p a with
    | true => rw [List.dropWhile_cons, if_pos hpa] at h; exact ih h
    | false =>
      rw [List.dropWhile_cons, if_neg (by simp [hpa])] at h
      cases h
      exact hpa

/-- Grammar-level description of one successful stream extraction on
`cs`: a run of whitespace, an optional sign, a nonempty maximal run of
decimal digits whose signed value fits in a 32-bit `int`, and then the
unconsumed remainder. -/
def ExtractSpec (cs : List Char) (v : Int) (rest : List Char) : Prop :=
  ∃ w sgn ds : List Char,
    cs = w ++ (sgn ++ (ds ++ rest))
    ∧ (∀ c ∈ w, isSpaceChar c = true)
    ∧ (sgn = [] ∨ sgn = ['+'] ∨ sgn = ['-'])
    ∧ ds ≠ []
    ∧ (∀ c ∈ ds, isDigitChar c = true)
    ∧ (∀ c cs2, rest = c :: cs2 → isDigitChar c = false)
    ∧ v = (if sgn = ['-'] then -(digitsVal ds : Int) else (digitsVal ds : Int))
    ∧ INT_MIN ≤ v ∧ v ≤ INT_MAX

theorem extractInt_of_spec {cs : List Char} {v : Int} {rest : List Char}
    (h : ExtractSpec cs v rest) : extractInt cs = some (v, rest) := by
  obtain ⟨w, sgn, ds, hcs, hw, hsgn, hne, hds, hrest, hv, hlo, hhi⟩ := h
  subst hcs
  obtain ⟨d, ds', rfl⟩ : ∃ d ds', ds = d :: ds' := by
    cases ds with
    | nil => exact absurd rfl hne
    | cons d ds' => exact ⟨d, ds', rfl⟩
  have hdd : isDigitChar d = true := hds d (by simp)
  have htake : List.takeWhile isDigitChar ((d :: ds') ++ rest) = d :: ds' :=
    takeWhile_append_all hds (fun c cs2 he => hrest c cs2 he)
  have hdropd : List.dropWhile isDigitChar ((d :: ds') ++ rest) = rest :=
    dropWhile_append_all_neg hds (fun c cs2 he => hrest c cs2 he)
  rcases hsgn with rfl | rfl | rfl
  · have hdrop :
        List.dropWhile isSpaceChar (w ++ (([] : List Char) ++ ((d :: ds') ++ rest)))
          = (d :: ds') ++ rest := by
      rw [dropWhile_append_all hw, List.nil_append, List.cons_append]
      exact dropWhile_cons_neg (not_space_of_digit hdd)
    have hsp : splitSign ((d :: ds') ++ rest) = (false, (d :: ds') ++ rest) := by
      rw [List.cons_append, splitSign, if_neg (digit_ne_minus hdd),
        if_neg (digit_ne_plus hdd)]
    simp only [extractInt, hdrop, hsp, htake, hdropd]
    rw [if_neg (by simp), if_pos ⟨hv ▸ hlo, hv ▸ hhi⟩]
    simp at hv
    rw [hv]
    simp
  · have hdrop :
        List.dropWhile isSpaceChar (w ++ (['+'] ++ ((d :: ds') ++ rest)))
          = ['+'] ++ ((d :: ds') ++ rest) := by
      rw [dropWhile_append_all hw]
      exact dropWhile_cons_neg (by decide)
    have hsp : splitSign (['+'] ++ ((d :: ds') ++ rest))
        = (false, (d :: ds') ++ rest) := by
      rw [List.singleton_append, splitSign, if_neg (by decide), if_pos rfl]
    simp only [extractInt, hdrop, hsp, htake, hdropd]
    rw [if_neg (by simp), if_pos ⟨hv ▸ hlo, hv ▸ hhi⟩]
    simp at hv
    rw [hv]
    simp
  · have hdrop :
        List.dropWhile isSpaceChar (w ++ (['-'] ++ ((d :: ds') ++ rest)))
          = ['-'] ++ ((d :: ds') ++ rest) := by
      rw [dropWhile_append_all hw]
      exact dropWhile_cons_neg (by decide)
    have hsp : splitSign (['-'] ++ ((d :: ds') ++ rest))
        = (true, (d :: ds') ++ rest) := by
      rw [List.singleton_append, splitSign, if_pos rfl]
    simp only [extractInt, hdrop, hsp, htake, hdropd]
    rw [if_neg (by simp), if_pos ⟨hv ▸ hlo, hv ▸ hhi⟩]
    simp at hv
    rw [hv]
    simp

theorem spec_of_extractInt {cs : List Char} {v : Int} {rest : List Char}
    (h : extractInt cs = some (v, rest)) : ExtractSpec cs v rest := by
  have hdecomp :
      List.takeWhile isSpaceChar cs ++ List.dropWhile isSpaceChar cs = cs :=
    List.takeWhile_append_dropWhile (p := isSpaceChar) (l := cs)
  have hw : ∀ c ∈ List.takeWhile isSpaceChar cs, isSpaceChar c = true :=
    fun c hc => List.mem_takeWhile_imp hc
  simp only [extractInt] at h
  cases hA : List.dropWhile isSpaceChar cs with
  | nil =>
    rw [hA] at h
    exact absurd h (by simp [splitSign])
  | cons a r =>
    rw [hA] at h
    have key : ∀ (neg : Bool) (body : List Char),
        splitSign (a :: r) = (neg, body) →
        a :: r = (if neg then ['-'] else if a = '+' then ['+'] else []) ++ body →
        ExtractSpec cs v rest := by
      intro neg body hsp hbody
      rw [hsp] at h
      simp only at h
      by_cases hds : List.takeWhile isDigitChar body = []
      · rw [if_pos hds] at h
        exact absurd h (by simp)
      · rw [if_neg hds] at h
        by_cases hrange :
            INT_MIN ≤ (if neg
                then -(digitsVal (List.takeWhile isDigitChar body) : Int)
                else (digitsVal (List.takeWhile isDigitChar body) : Int))
              ∧ (if neg
                then -(digitsVal (List.takeWhile isDigitChar body) : Int)
                else (digitsVal (List.takeWhile isDigitChar body) : Int)) ≤ INT_MAX
        · rw [if_pos hrange] at h
          have hv :
              (if neg
                then -(digitsVal (List.takeWhile isDigitChar body) : Int)
                else (digitsVal (List.takeWhile isDigitChar body) : Int)) = v ∧
              List.dropWhile isDigitChar body = rest := by
            constructor
            · exact congrArg Prod.fst (Option.some.inj h)
            · exact congrArg Prod.snd (Option.some.inj h)
          have hcs : List.takeWhile isSpaceChar cs ++
              ((if neg then ['-'] else if a = '+' then ['+'] else []) ++
                (List.takeWhile isDigitChar body ++ rest)) = cs := by
            rw [← hv.2,
              List.takeWhile_append_dropWhile (p := isDigitChar) (l := body),
              ← hbody, ← hA]
            exact hdecomp
          refine ⟨List.takeWhile isSpaceChar cs,
            if neg then ['-'] else if a = '+' then ['+'] else [],
            List.takeWhile isDigitChar body, ?_, hw, ?_, hds, ?_, ?_, ?_, ?_, ?_⟩
          · exact hcs.symm
          · cases neg <;> simp <;> by_cases hap : a = '+' <;> simp [hap]
          · exact fun c hc => List.mem_takeWhile_imp hc
          · intro c cs2 he
            rw [← hv.2] at he
            exact dropWhile_head_false he
          · rw [← hv.1]
            cases neg with
            | true => simp
            | false =>
              by_cases hap : a = '+' <;> simp [hap]
          · exact hv.1 ▸ hrange.1
          · exact hv.1 ▸ hrange.2
        · rw [if_neg hrange] at h
          exact absurd h (by simp)
    by_cases ham : a = '-'
    · subst ham
      exact key true r (by rw [splitSign, if_pos rfl]) (by simp)
    · by_cases hap : a = '+'
      · subst hap
        exact key false r
          (by rw [splitSign, if_neg (by decide), if_pos rfl]) (by simp)
      · exact key false (a :: r)
          (by rw [splitSign, if_neg ham, if_neg hap]) (by simp [ham, hap])

/-- A stream extraction succeeds with value `v` and remainder `rest`
exactly when the input has the whitespace/sign/digits shape of
`ExtractSpec`. -/
theorem extractInt_eq_some_iff {cs : List Char} {v : Int} {rest : List Char} :
    extractInt cs = some (v, rest) ↔ ExtractSpec cs v rest :=
  ⟨spec_of_extractInt, extractInt_of_spec⟩

theorem extractInt_shrink {cs : List Char} {v : Int} {rest : List Char}
    (h : extractInt cs = some (v, rest)) : rest.length < cs.length := by
  obtain ⟨w, sgn, ds, hcs, -, -, hne, -, -, -, -, -⟩ := spec_of_extractInt h
  subst hcs
  cases ds with
  | nil => exact absurd rfl hne
  | cons d ds' => simp [List.length_append]; omega

theorem extractInt_all_space {cs : List Char}
    (h : ∀ c ∈ cs, isSpaceChar c = true) : extractInt cs = none := by
  simp only [extractInt]
  rw [dropWhile_eq_nil_all h]
  rfl

theorem readLoop_congr :
    ∀ {f : Nat} {g : Nat} {cs : List Char}, cs.length < f → cs.length < g →
      readLoop f cs = readLoop g cs := by
  intro f
  induction f with
  | zero => intro g cs hf; omega
  | succ f ih =>
    intro g cs hf hg
    cases g with
    | zero => omega
    | succ g =>
      simp only [readLoop]
      cases hx : extractInt cs with
      | none => rfl
      | some p =>
        cases p with
        | mk n rest =>
          have hsh := extractInt_shrink hx
          show n :: readLoop f rest = n :: readLoop g rest
          exact congrArg (List.cons n) (ih (by omega) (by omega))

/-- The defining unfolding of the reader: one extraction, then the rest
of the loop. -/
theorem readChars_eq (cs : List Char) :
    readChars cs = (match extractInt cs with
      | none => []
      | some (n, rest) => n :: readChars rest) := by
  show readLoop (cs.length + 1) cs = _
  simp only [readLoop]
  cases hx : extractInt cs with
  | none => rfl
  | some p =>
    cases p with
    | mk n rest =>
      have hsh := extractInt_shrink hx
      show n :: readLoop cs.length rest = n :: readLoop (rest.length + 1) rest
      exact congrArg (List.cons n) (readLoop_congr (by omega) (by omega))

/-- The integer value of a standalone optionally-signed digit token. -/
def tokenVal (t : List Char) : Int :=
  if (splitSign t).1 then -(digitsVal (splitSign t).2 : Int)
  else (digitsVal (splitSign t).2 : Int)

/-- A whole token that parses as a C++ `int`: an optional sign, then
nothing but digits, at least one, with the signed value in range. -/
def isIntToken (t : List Char) : Bool :=
  decide ((splitSign t).2 ≠ []) && (splitSign t).2.all isDigitChar
    && decide (INT_MIN ≤ tokenVal t ∧ tokenVal t ≤ INT_MAX)

/-- A run of whitespace characters. -/
abbrev SpaceRun (w : List Char) : Prop := ∀ c ∈ w, isSpaceChar c = true

/-- The remainder after a token either ends the content or begins with
whitespace (so the token stands alone). -/
abbrev SepOk : List Char → Prop
  | [] => True
  | c :: _ => isSpaceChar c = true

/-- `TokensOf ts cs`: the content `cs` consists exactly of the
whitespace-separated integer tokens `ts`, in order, with arbitrary
leading, separating and trailing whitespace. -/
inductive TokensOf : List (List Char) → List Char → Prop
  | nil {w : List Char} : SpaceRun w → TokensOf [] w
  | cons {w t rest : List Char} {ts : List (List Char)} :
      SpaceRun w → isIntToken t = true → SepOk rest → TokensOf ts rest →
      TokensOf (t :: ts) (w ++ (t ++ rest))

theorem not_digit_head_of_sepOk {rest : List Char} (hsep : SepOk rest) :
    ∀ c cs2, rest = c :: cs2 → isDigitChar c = false := by
  intro c cs2 he
  subst he
  exact not_digit_of_space hsep

theorem extractInt_token {w t rest : List Char} (hw : SpaceRun w)
    (ht : isIntToken t = true) (hsep : SepOk rest) :
    extractInt (w ++ (t ++ rest)) = some (tokenVal t, rest) := by
  apply extractInt_of_spec
  simp only [isIntToken, Bool.and_eq_true, decide_eq_true_eq,
    List.all_eq_true] at ht
  obtain ⟨⟨hne, hds⟩, hlo, hhi⟩ := ht
  cases t with
  | nil => exact absurd (rfl : (splitSign ([] : List Char)).2 = []) hne
  | cons a r =>
    by_cases ham : a = '-'
    · subst ham
      have hsp : splitSign ('-' :: r) = (true, r) := by
        rw [splitSign, if_pos rfl]
      rw [hsp] at hne hds
      refine ⟨w, ['-'], r, by simp, hw, by simp, hne,
        hds, not_digit_head_of_sepOk hsep, ?_, ?_, ?_⟩
      · simp [tokenVal, hsp]
      · exact hlo
      · exact hhi
    · by_cases hap : a = '+'
      · subst hap
        have hsp : splitSign ('+' :: r) = (false, r) := by
          rw [splitSign, if_neg (by decide), if_pos rfl]
        rw [hsp] at hne hds
        refine ⟨w, ['+'], r, by simp, hw, by simp, hne,
          hds, not_digit_head_of_sepOk hsep, ?_, ?_, ?_⟩
        · simp [tokenVal, hsp]
        · exact hlo
        · exact hhi
      · have hsp : splitSign (a :: r) = (false, a :: r) := by
          rw [splitSign, if_neg ham, if_neg hap]
        rw [hsp] at hne hds
        refine ⟨w, [], a :: r, by simp, hw, by simp, hne,
          hds, not_digit_head_of_sepOk hsep, ?_, ?_, ?_⟩
        · simp [tokenVal, hsp]
        · exact hlo
        · exact hhi

theorem readChars_tokensOf :
    ∀ {ts : List (List Char)} {cs : List Char},
      TokensOf ts cs → readChars cs = ts.map tokenVal := by
  intro ts cs h
  induction h with
  | nil hw => rw [readChars_eq, extractInt_all_space hw]; rfl
  | cons hw ht hsep htl ih =>
    rw [readChars_eq, extractInt_token hw ht hsep]
    simp [ih]

/-- Modelled from the spec: the whitespace-separated tokens of the
content ("its content is whitespace-separated integer tokens"). -/
def wordsOf (content : String) : List (List Char) :=
  (content.toList.splitOnP fun c => isSpaceChar c).filter (fun t => t ≠ [])

/-- Modelled from the spec: the claim's reading of `read_numbers` as
"exactly the maximal prefix of whitespace-separated tokens that parse
as integers, in file order", where a token parses as an integer when it
is wholly an optionally signed decimal numeral that fits an `int`. -/
def spec_read_numbers (content : String) : List Int :=
  ((wordsOf content).takeWhile isIntToken).map tokenVal

/-- Modelled from the spec: the claim's GT-argument grammar, "a decimal
integer (optionally signed)" standing on its own, nothing after it. -/
def spec_int_literal (t : List Char) : Bool :=
  decide ((splitSign t).2 ≠ []) && (splitSign t).2.all isDigitChar

theorem flatMap_ite_eq_filter_flatMap (keepf : Int → Bool)
    (f : Int → List (Nat × ObsEvent)) :
    ∀ ns : List Int,
      (ns.flatMap fun n => if keepf n then f n else [])
        = (ns.filter keepf).flatMap f := by
  intro ns
  induction ns with
  | nil => rfl
  | cons a t ih =>
    by_cases h : keepf a = true
    · simp [List.filter_cons, h, ih]
    · simp [List.filter_cons, h, ih]

theorem procStep_deterministic {keepf : Int → Bool} {s t1 t2 : ProcState}
    (h1 : ProcStep keepf s t1) (h2 : ProcStep keepf s t2) : t1 = t2 := by
  cases h1 with
  | keep_num hk1 =>
    cases h2 with
    | keep_num hk2 => rfl
    | skip_num hk2 => rw [hk1] at hk2; exact absurd hk2 (by decide)
  | skip_num hk1 =>
    cases h2 with
    | keep_num hk2 => rw [hk1] at hk2; exact absurd hk2 (by decide)
    | skip_num hk2 => rfl
  | finish =>
    cases h2 with
    | finish => rfl

theorem no_procStep_of_finished {keepf : Int → Bool} {s t : ProcState}
    (hf : s.finished = true) (h : ProcStep keepf s t) : False := by
  cases h <;> simp at hf

/-- A complete run of the processor's state machine: the machine
reaches a state with `finished` set (from which no step exists). -/
def Completes (keepf : Int → Bool) (s f : ProcState) : Prop :=
  Relation.ReflTransGen (ProcStep keepf) s f ∧ f.finished = true

theorem completes_unique {keepf : Int → Bool} {s f1 f2 : ProcState}
    (h1 : Relation.ReflTransGen (ProcStep keepf) s f1)
    (hf1 : f1.finished = true)
    (h2 : Relation.ReflTransGen (ProcStep keepf) s f2)
    (hf2 : f2.finished = true) : f1 = f2 := by
  revert h2
  induction h1 using Relation.ReflTransGen.head_induction_on with
  | refl =>
    intro h2
    rcases Relation.ReflTransGen.cases_head h2 with he | ⟨c, hstep, -⟩
    · exact he
    · exact absurd hstep (fun hs => no_procStep_of_finished hf1 hs)
  | head hstep htl ih =>
    intro h2
    rcases Relation.ReflTransGen.cases_head h2 with he | ⟨c, hstep2, htl2⟩
    · exact absurd (he ▸ hstep) (fun hs => no_procStep_of_finished hf2 hs)
    · exact ih ((procStep_deterministic hstep hstep2) ▸ htl2)

theorem prefix_head_eq {a b : Char} {l1 l2 s : List Char}
    (h1 : (a :: l1) <+: s) (h2 : (b :: l2) <+: s) : a = b := by
  obtain ⟨t1, ht1⟩ := h1
  obtain ⟨t2, ht2⟩ := h2
  rw [← ht1] at ht2
  simp only [List.cons_append, List.cons.injEq] at ht2
  exact ht2.1.symm

theorem isPrefixOf_eq_true_iff {l1 l2 : List Char} :
    l1.isPrefixOf l2 = true ↔ l1 <+: l2 :=
  List.isPrefixOf_iff_prefix

theorem isPrefixOf_false_of_head_ne {a b : Char} {l1 l2 s : List Char}
    (hne : b ≠ a) (h : (a :: l1).isPrefixOf s = true) :
    (b :: l2).isPrefixOf s = false := by
  cases hb : (b :: l2).isPrefixOf s with
  | false => rfl
  | true =>
    exact absurd (prefix_head_eq (isPrefixOf_eq_true_iff.mp hb)
      (isPrefixOf_eq_true_iff.mp h)) hne

theorem even_prefix_false_of_gt {s : String}
    (h : "GT".toList.isPrefixOf s.toList = true) :
    "EVEN".toList.isPrefixOf s.toList = false :=
  isPrefixOf_false_of_head_ne (by decide)
    (show ('G' :: "T".toList).isPrefixOf s.toList = true from h)

theorem odd_prefix_false_of_gt {s : String}
    (h : "GT".toList.isPrefixOf s.toList = true) :
    "ODD".toList.isPrefixOf s.toList = false :=
  isPrefixOf_false_of_head_ne (by decide)
    (show ('G' :: "T".toList).isPrefixOf s.toList = true from h)

theorem gt_prefix_false_of_even {s : String}
    (h : "EVEN".toList.isPrefixOf s.toList = true) :
    "GT".toList.isPrefixOf s.toList = false :=
  isPrefixOf_false_of_head_ne (by decide)
    (show ('E' :: "VEN".toList).isPrefixOf s.toList = true from h)

theorem gt_prefix_false_of_odd {s : String}
    (h : "ODD".toList.isPrefixOf s.toList = true) :
    "GT".toList.isPrefixOf s.toList = false :=
  isPrefixOf_false_of_head_ne (by decide)
    (show ('O' :: "DD".toList).isPrefixOf s.toList = true from h)

theorem even_prefix_false_of_odd {s : String}
    (h : "ODD".toList.isPrefixOf s.toList = true) :
    "EVEN".toList.isPrefixOf s.toList = false :=
  isPrefixOf_false_of_head_ne (by decide)
    (show ('O' :: "DD".toList).isPrefixOf s.toList = true from h)

theorem gt_token_ne_even {s : String}
    (h : "GT".toList.isPrefixOf s.toList = true) : s ≠ "EVEN" := by
  intro he
  subst he
  exact absurd h (by decide)

theorem gt_token_ne_odd {s : String}
    (h : "GT".toList.isPrefixOf s.toList = true) : s ≠ "ODD" := by
  intro he
  subst he
  exact absurd h (by decide)

theorem even_prefix_of_eq {s : String} (h : s = "EVEN") :
    "EVEN".toList.isPrefixOf s.toList = true := by
  subst h
  decide

theorem odd_prefix_of_eq {s : String} (h : s = "ODD") :
    "ODD".toList.isPrefixOf s.toList = true := by
  subst h
  decide

/-- Complete case analysis of the if-chain factory. -/
theorem create_filter_cases (s : String) :
    (s = "EVEN" ∧ create_filter s = .ok .even)
    ∨ (s ≠ "EVEN" ∧ s = "ODD" ∧ create_filter s = .ok .odd)
    ∨ (s ≠ "EVEN" ∧ s ≠ "ODD" ∧ "GT".toList.isPrefixOf s.toList = true
        ∧ ((∃ t rest, extractInt (s.toList.drop 2) = some (t, rest)
              ∧ create_filter s = .ok (.gt t))
           ∨ (extractInt (s.toList.drop 2) = none
              ∧ create_filter s = .error "Invalid GT filter format")))
    ∨ (s ≠ "EVEN" ∧ s ≠ "ODD" ∧ "GT".toList.isPrefixOf s.toList = false
        ∧ create_filter s = .error ("Unknown filter: " ++ s)) := by
  by_cases h1 : s = "EVEN"
  · exact Or.inl ⟨h1, by unfold create_filter; rw [if_pos h1]⟩
  · by_cases h2 : s = "ODD"
    · exact Or.inr (Or.inl ⟨h1, h2, by
        unfold create_filter; rw [if_neg h1, if_pos h2]⟩)
    · by_cases h3 : "GT".toList.isPrefixOf s.toList = true
      · refine Or.inr (Or.inr (Or.inl ⟨h1, h2, h3, ?_⟩))
        cases hx : extractInt (s.toList.drop 2) with
        | none =>
          refine Or.inr ⟨rfl, ?_⟩
          unfold create_filter
          rw [if_neg h1, if_neg h2, if_pos h3, hx]
        | some p =>
          obtain ⟨t, r⟩ := p
          refine Or.inl ⟨t, r, rfl, ?_⟩
          unfold create_filter
          rw [if_neg h1, if_neg h2, if_pos h3, hx]
      · refine Or.inr (Or.inr (Or.inr ⟨h1, h2, by
          rw [Bool.not_eq_true] at h3; exact h3, ?_⟩))
        unfold create_filter
        rw [if_neg h1, if_neg h2, if_neg h3]

/-- Complete case analysis of the registry factory (map order
`"EVEN" < "GT" < "ODD"`). -/
theorem create_filter_registry_cases (s : String) :
    ("EVEN".toList.isPrefixOf s.toList = true
        ∧ create_filter_registry s = .ok .even)
    ∨ ("EVEN".toList.isPrefixOf s.toList = false
        ∧ "GT".toList.isPrefixOf s.toList = true
        ∧ ((∃ t rest, extractInt (s.toList.drop 2) = some (t, rest)
              ∧ create_filter_registry s = .ok (.gt t))
           ∨ (extractInt (s.toList.drop 2) = none
              ∧ create_filter_registry s
                  = .error ("Invalid GT filter format: " ++ s))))
    ∨ ("EVEN".toList.isPrefixOf s.toList = false
        ∧ "GT".toList.isPrefixOf s.toList = false
        ∧ "ODD".toList.isPrefixOf s.toList = true
        ∧ create_filter_registry s = .ok .odd)
    ∨ ("EVEN".toList.isPrefixOf s.toList = false
        ∧ "GT".toList.isPrefixOf s.toList = false
        ∧ "ODD".toList.isPrefixOf s.toList = false
        ∧ create_filter_registry s = .error ("Unknown filter: " ++ s)) := by
  by_cases h1 : "EVEN".toList.isPrefixOf s.toList = true
  · exact Or.inl ⟨h1, by unfold create_filter_registry; rw [if_pos h1]⟩
  · rw [Bool.not_eq_true] at h1
    by_cases h2 : "GT".toList.isPrefixOf s.toList = true
    · refine Or.inr (Or.inl ⟨h1, h2, ?_⟩)
      cases hx : extractInt (s.toList.drop 2) with
      | none =>
        refine Or.inr ⟨rfl, ?_⟩
        unfold create_filter_registry
        rw [if_neg (by rw [h1]; exact Bool.false_ne_true), if_pos h2, hx]
      | some p =>
        obtain ⟨t, r⟩ := p
        refine Or.inl ⟨t, r, rfl, ?_⟩
        unfold create_filter_registry
        rw [if_neg (by rw [h1]; exact Bool.false_ne_true), if_pos h2, hx]
    · rw [Bool.not_eq_true] at h2
      by_cases h3 : "ODD".toList.isPrefixOf s.toList = true
      · refine Or.inr (Or.inr (Or.inl ⟨h1, h2, h3, ?_⟩))
        unfold create_filter_registry
        rw [if_neg (by rw [h1]; exact Bool.false_ne_true),
          if_neg (by rw [h2]; exact Bool.false_ne_true), if_pos h3]
      · rw [Bool.not_eq_true] at h3
        refine Or.inr (Or.inr (Or.inr ⟨h1, h2, h3, ?_⟩))
        unfold create_filter_registry
        rw [if_neg (by rw [h1]; exact Bool.false_ne_true),
          if_neg (by rw [h2]; exact Bool.false_ne_true),
          if_neg (by rw [h3]; exact Bool.false_ne_true)]

/-! Claim theorems. -/

/-- C4: for every run of the processor over any input sequence
(including the empty one) and any number `k` of registered observers,
the event trace ends with `on_finished` delivered to the observers
`0, …, k-1` in registration order, exactly once each, and no
`on_finished` is delivered anywhere else in the trace — regardless of
how many (including zero) values were kept. -/
theorem run_finishes_every_observer_once
    (keepf : Int → Bool) (ns : List Int) (k : Nat) :
    ∃ p : List (Nat × ObsEvent),
      runTrace keepf ns k
        = p ++ (List.range k).map (fun i => (i, ObsEvent.finished))
      ∧ ∀ e ∈ p, e.2 ≠ ObsEvent.finished := by
  refine ⟨ns.flatMap fun n => if keepf n then notifyAll k (.num n) else [],
    rfl, ?_⟩
  intro e he hfin
  rw [List.mem_flatMap] at he
  obtain ⟨n, -, hin⟩ := he
  by_cases h : keepf n = true
  · rw [if_pos h] at hin
    simp only [notifyAll, List.mem_map, List.mem_range] at hin
    obtain ⟨i, -, rfl⟩ := hin
    exact absurd hfin (by simp)
  · rw [if_neg h] at hin
    exact absurd hin (by simp)

/-- C5: the processor visits the numbers in arrival order and notifies
every observer in registration order of each kept value before moving
on (the trace is the concatenation of one full observer broadcast per
kept value, in order, then the finish broadcast); consequently the
whole pipeline on filter token "EVEN" and source content
"3 4 5 6 7 8" prints exactly the lines 4, 6, 8 followed by
"Total numbers passed filter: 3", and exits 0. -/
theorem run_preserves_arrival_and_registration_order :
    (∀ (keepf : Int → Bool) (ns : List Int) (k : Nat),
       runTrace keepf ns k
         = (ns.filter keepf).flatMap (fun n => notifyAll k (.num n))
             ++ notifyAll k .finished)
    ∧ main_np "EVEN" "numbers.txt" (some "3 4 5 6 7 8")
        = (0, ["4", "6", "8", "Total numbers passed filter: 3"], []) := by
  constructor
  · intro keepf ns k
    rw [runTrace, flatMap_ite_eq_filter_flatMap]
  · decide

/-- C6: the greater-than filter keeps exactly the integers strictly
greater than its threshold (for all integers, negative included), and
the token "GT-5" builds the filter with threshold -5, which keeps
exactly the integers strictly greater than -5. -/
theorem greater_than_filter_strict :
    (∀ t n : Int, keep (.gt t) n = true ↔ t < n)
    ∧ create_filter "GT-5" = .ok (.gt (-5))
    ∧ (∀ n : Int, keep (.gt (-5)) n = true ↔ -5 < n) := by
  refine ⟨?_, by decide, ?_⟩
  · intro t n
    simp [keep]
  · intro n
    simp [keep]

/-- C7: on every integer the even filter and the odd filter return
opposite booleans (exactly one keeps it), under the truncating-division
remainder convention both use — so -3 is odd and -4 is even. -/
theorem even_odd_filters_opposite :
    ∀ n : Int, keep .even n ≠ keep .odd n
      ∧ keep .odd (-3) = true ∧ keep .even (-4) = true := by
  intro n
  refine ⟨?_, by decide, by decide⟩
  by_cases h : Int.tmod n 2 = 0 <;> simp [keep, h]

/-- C8 counterexample: on the content "1 2 3abc 4" the reader returns
[1, 2, 3] — the non-integer token "3abc" contributes its leading
digits — while the claimed "maximal prefix of whitespace-separated
tokens that parse as integers" is [1, 2]. -/
theorem read_numbers_splits_partial_token :
    read_numbers "1 2 3abc 4" = [1, 2, 3]
    ∧ spec_read_numbers "1 2 3abc 4" = [1, 2]
    ∧ [1, 2, 3] ≠ [1, 2] := by
  refine ⟨by decide, by decide, by decide⟩

/-- C8 (amended): consumption stops at the first failed formatted
extraction, and a partially numeric token contributes its leading
integer rather than raising an error; in particular, whenever the
content consists exactly of whitespace-separated tokens that each
wholly parse as an `int`, the reader returns exactly their values in
file order. -/
theorem read_numbers_of_int_tokens (content : String)
    (ts : List (List Char)) (h : TokensOf ts content.toList) :
    read_numbers content = ts.map tokenVal :=
  readChars_tokensOf h

theorem read_numbers_of_int_tokens_witness :
    read_numbers " 3  -4 +5 " = [3, -4, 5] := by
  have h : TokensOf [['3'], ['-', '4'], ['+', '5']] " 3  -4 +5 ".toList := by
    have h0 : TokensOf [] ([' '] : List Char) := .nil (by decide)
    have h1 : TokensOf [['+', '5']] ([' '] ++ (['+', '5'] ++ [' '])) :=
      .cons (by decide) (by decide) (by decide) h0
    have h2 : TokensOf [['-', '4'], ['+', '5']]
        ([' ', ' '] ++ (['-', '4'] ++ ([' '] ++ (['+', '5'] ++ [' '])))) :=
      .cons (by decide) (by decide)
        (by show isSpaceChar ' ' = true; decide) h1
    have h3 : TokensOf [['3'], ['-', '4'], ['+', '5']]
        ([' '] ++ (['3'] ++
          ([' ', ' '] ++ (['-', '4'] ++ ([' '] ++ (['+', '5'] ++ [' '])))))) :=
      .cons (by decide) (by decide)
        (by show isSpaceChar ' ' = true; decide) h2
    exact h3
  rw [read_numbers_of_int_tokens " 3  -4 +5 " [['3'], ['-', '4'], ['+', '5']] h]
  decide

/-- C9: the pipeline is deterministic — any two complete executions of
the processor's state machine from the same read sequence with the same
filter end in the same state, so they print the same lines in the same
order and report the same final count. -/
theorem pipeline_run_deterministic (keepf : Int → Bool) (ns : List Int)
    (f1 f2 : ProcState)
    (h1 : Completes keepf (initState ns) f1)
    (h2 : Completes keepf (initState ns) f2) :
    f1.outLines = f2.outLines ∧ f1.count = f2.count := by
  have he := completes_unique h1.1 h1.2 h2.1 h2.2
  exact ⟨congrArg ProcState.outLines he, congrArg ProcState.count he⟩

theorem pipeline_run_deterministic_witness :
    (⟨[], ["2", "Total numbers passed filter: 1"], 1, true⟩
        : ProcState).outLines
      = (⟨[], ["2", "Total numbers passed filter: 1"], 1, true⟩
        : ProcState).outLines
    ∧ (⟨[], ["2", "Total numbers passed filter: 1"], 1, true⟩
        : ProcState).count
      = (⟨[], ["2", "Total numbers passed filter: 1"], 1, true⟩
        : ProcState).count := by
  have hc : Completes (keep .even) (initState [2])
      ⟨[], ["2", "Total numbers passed filter: 1"], 1, true⟩ := by
    constructor
    · exact Relation.ReflTransGen.head (ProcStep.keep_num (by decide))
        (Relation.ReflTransGen.head ProcStep.finish Relation.ReflTransGen.refl)
    · rfl
  exact pipeline_run_deterministic (keep .even) [2] _ _ hc hc

theorem odd_prefix_false_of_even {s : String}
    (h : "EVEN".toList.isPrefixOf s.toList = true) :
    "ODD".toList.isPrefixOf s.toList = false :=
  isPrefixOf_false_of_head_ne (by decide)
    (show ('E' :: "VEN".toList).isPrefixOf s.toList = true from h)

/-- C1 counterexample: the token "GT5abc" is not "GT" followed by an
optionally signed decimal integer — its remainder "5abc" is not an
integer literal — yet `create_filter` builds the greater-than filter
with threshold 5: the stream parse takes the leading digits and ignores
the trailing characters. -/
theorem create_filter_accepts_gt5abc :
    create_filter "GT5abc" = .ok (.gt 5)
    ∧ spec_int_literal ("GT5abc".toList.drop 2) = false :=
  ⟨by decide, by decide⟩

/-- C1 (amended): the exact token grammar of the two factories.  The
if-chain factory yields the even (odd) filter exactly on the token
"EVEN" ("ODD"), while the registry factory accepts any token with
prefix "EVEN" ("ODD"); both yield the greater-than filter with
threshold `t` exactly on the tokens starting with "GT" whose remainder
is whitespace, an optional sign and a nonempty digit run of value `t`
(within `int` range), with arbitrary trailing characters after the
digit run; no other token yields a filter. -/
theorem create_filter_token_grammar (s : String) :
    (create_filter s = .ok .even ↔ s = "EVEN")
    ∧ (create_filter s = .ok .odd ↔ s = "ODD")
    ∧ (∀ t : Int, create_filter s = .ok (.gt t) ↔
        ("GT".toList.isPrefixOf s.toList = true
          ∧ ∃ rest, ExtractSpec (s.toList.drop 2) t rest))
    ∧ (create_filter_registry s = .ok .even
        ↔ "EVEN".toList.isPrefixOf s.toList = true)
    ∧ (create_filter_registry s = .ok .odd
        ↔ "ODD".toList.isPrefixOf s.toList = true)
    ∧ (∀ t : Int, create_filter_registry s = .ok (.gt t) ↔
        ("GT".toList.isPrefixOf s.toList = true
          ∧ ∃ rest, ExtractSpec (s.toList.drop 2) t rest)) := by
  refine ⟨?_, ?_, ?_, ?_, ?_, ?_⟩
  · rcases create_filter_cases s with ⟨hE, hc⟩ | ⟨hnE, hO, hc⟩ |
      ⟨hnE, hnO, hGT, hsub⟩ | ⟨hnE, hnO, hGT, hc⟩
    · rw [hc]; simp [hE]
    · rw [hc]; simp [hnE]
    · rcases hsub with ⟨t, r, -, hc⟩ | ⟨-, hc⟩ <;> rw [hc] <;> simp [hnE]
    · rw [hc]; simp [hnE]
  · rcases create_filter_cases s with ⟨hE, hc⟩ | ⟨hnE, hO, hc⟩ |
      ⟨hnE, hnO, hGT, hsub⟩ | ⟨hnE, hnO, hGT, hc⟩
    · rw [hc]; simp [hE]
    · rw [hc]; simp [hO]
    · rcases hsub with ⟨t, r, -, hc⟩ | ⟨-, hc⟩ <;> rw [hc] <;> simp [hnO]
    · rw [hc]; simp [hnO]
  · intro t
    rcases create_filter_cases s with ⟨hE, hc⟩ | ⟨hnE, hO, hc⟩ |
      ⟨hnE, hnO, hGT, hsub⟩ | ⟨hnE, hnO, hGT, hc⟩
    · rw [hc]
      constructor
      · intro h; exact absurd h (by simp)
      · rintro ⟨hgt, -⟩
        rw [hE] at hgt
        exact absurd hgt (by decide)
    · rw [hc]
      constructor
      · intro h; exact absurd h (by simp)
      · rintro ⟨hgt, -⟩
        rw [hO] at hgt
        exact absurd hgt (by decide)
    · rcases hsub with ⟨t', r', hx, hc⟩ | ⟨hx, hc⟩
      · rw [hc]
        constructor
        · intro h
          simp only [Except.ok.injEq, NumberFilter.gt.injEq] at h
          subst h
          exact ⟨hGT, r', spec_of_extractInt hx⟩
        · rintro ⟨-, r, hspec⟩
          have h2 := extractInt_of_spec hspec
          rw [hx] at h2
          simp only [Option.some.injEq, Prod.mk.injEq] at h2
          rw [h2.1]
      · rw [hc]
        constructor
        · intro h; exact absurd h (by simp)
        · rintro ⟨-, r, hspec⟩
          have h2 := extractInt_of_spec hspec
          rw [hx] at h2
          exact absurd h2 (by simp)
    · rw [hc]
      constructor
      · intro h; exact absurd h (by simp)
      · rintro ⟨hgt, -⟩
        rw [hGT] at hgt
        exact absurd hgt (by decide)
  · rcases create_filter_registry_cases s with ⟨hE, hc⟩ |
      ⟨hE, hGT, hsub⟩ | ⟨hE, hGT, hO, hc⟩ | ⟨hE, hGT, hO, hc⟩
    · exact iff_of_true hc hE
    · rcases hsub with ⟨t, r, -, hc⟩ | ⟨-, hc⟩ <;>
        exact iff_of_false (by simp [hc])
          (by rw [hE]; exact Bool.false_ne_true)
    · exact iff_of_false (by simp [hc])
        (by rw [hE]; exact Bool.false_ne_true)
    · exact iff_of_false (by simp [hc])
        (by rw [hE]; exact Bool.false_ne_true)
  · rcases create_filter_registry_cases s with ⟨hE, hc⟩ |
      ⟨hE, hGT, hsub⟩ | ⟨hE, hGT, hO, hc⟩ | ⟨hE, hGT, hO, hc⟩
    · exact iff_of_false (by simp [hc])
        (by rw [odd_prefix_false_of_even hE]; exact Bool.false_ne_true)
    · rcases hsub with ⟨t, r, -, hc⟩ | ⟨-, hc⟩ <;>
        exact iff_of_false (by simp [hc])
          (by rw [odd_prefix_false_of_gt hGT]; exact Bool.false_ne_true)
    · exact iff_of_true hc hO
    · exact iff_of_false (by simp [hc])
        (by rw [hO]; exact Bool.false_ne_true)
  · intro t
    rcases create_filter_registry_cases s with ⟨hE, hc⟩ |
      ⟨hE, hGT, hsub⟩ | ⟨hE, hGT, hO, hc⟩ | ⟨hE, hGT, hO, hc⟩
    · rw [hc]
      constructor
      · intro h; exact absurd h (by simp)
      · rintro ⟨hgt, -⟩
        rw [gt_prefix_false_of_even hE] at hgt
        exact absurd hgt (by decide)
    · rcases hsub with ⟨t', r', hx, hc⟩ | ⟨hx, hc⟩
      · rw [hc]
        constructor
        · intro h
          simp only [Except.ok.injEq, NumberFilter.gt.injEq] at h
          subst h
          exact ⟨hGT, r', spec_of_extractInt hx⟩
        · rintro ⟨-, r, hspec⟩
          have h2 := extractInt_of_spec hspec
          rw [hx] at h2
          simp only [Option.some.injEq, Prod.mk.injEq] at h2
          rw [h2.1]
      · rw [hc]
        constructor
        · intro h; exact absurd h (by simp)
        · rintro ⟨-, r, hspec⟩
          have h2 := extractInt_of_spec hspec
          rw [hx] at h2
          exact absurd h2 (by simp)
    · rw [hc]
      constructor
      · intro h; exact absurd h (by simp)
      · rintro ⟨hgt, -⟩
        rw [hGT] at hgt
        exact absurd hgt (by decide)
    · rw [hc]
      constructor
      · intro h; exact absurd h (by simp)
      · rintro ⟨hgt, -⟩
        rw [hGT] at hgt
        exact absurd hgt (by decide)

/-- C2 counterexample: "GTabc" raises the invalid-argument error in
the if-chain factory, but the error's message is the fixed string
"Invalid GT filter format", which does not carry the offending
token. -/
theorem create_filter_gtabc_message_lacks_token :
    create_filter "GTabc" = .error "Invalid GT filter format"
    ∧ ¬ ("GTabc".toList <:+: "Invalid GT filter format".toList) :=
  ⟨by decide, by decide⟩

/-- C2 (amended): each factory signals an error exactly when the token
matches none of its known forms (an unknown-filter error whose message
carries the offending token) or starts with "GT" while the remainder
fails integer extraction (an invalid-argument error; the registry
factory's message carries the offending token, while the if-chain
factory's message is the fixed string "Invalid GT filter format" and
does not); in particular "GTabc" yields the invalid-argument error and
"XYZ" the unknown-filter error in both factories. -/
theorem create_filter_error_classification (s : String) :
    ((∃ m, create_filter s = .error m) ↔
       ((s ≠ "EVEN" ∧ s ≠ "ODD" ∧ "GT".toList.isPrefixOf s.toList = false)
        ∨ ("GT".toList.isPrefixOf s.toList = true
            ∧ extractInt (s.toList.drop 2) = none)))
    ∧ (s ≠ "EVEN" → s ≠ "ODD" → "GT".toList.isPrefixOf s.toList = false →
        create_filter s = .error ("Unknown filter: " ++ s)
        ∧ s.toList <:+ ("Unknown filter: " ++ s).toList)
    ∧ ("GT".toList.isPrefixOf s.toList = true →
        extractInt (s.toList.drop 2) = none →
        create_filter s = .error "Invalid GT filter format")
    ∧ ((∃ m, create_filter_registry s = .error m) ↔
       (("EVEN".toList.isPrefixOf s.toList = false
          ∧ "ODD".toList.isPrefixOf s.toList = false
          ∧ "GT".toList.isPrefixOf s.toList = false)
        ∨ ("GT".toList.isPrefixOf s.toList = true
            ∧ extractInt (s.toList.drop 2) = none)))
    ∧ ("EVEN".toList.isPrefixOf s.toList = false →
        "ODD".toList.isPrefixOf s.toList = false →
        "GT".toList.isPrefixOf s.toList = false →
        create_filter_registry s = .error ("Unknown filter: " ++ s)
        ∧ s.toList <:+ ("Unknown filter: " ++ s).toList)
    ∧ ("GT".toList.isPrefixOf s.toList = true →
        extractInt (s.toList.drop 2) = none →
        create_filter_registry s = .error ("Invalid GT filter format: " ++ s)
        ∧ s.toList <:+ ("Invalid GT filter format: " ++ s).toList)
    ∧ create_filter_registry "GTabc"
        = .error ("Invalid GT filter format: " ++ "GTabc")
    ∧ create_filter "XYZ" = .error ("Unknown filter: " ++ "XYZ")
    ∧ create_filter_registry "XYZ" = .error ("Unknown filter: " ++ "XYZ") := by
  refine ⟨?_, ?_, ?_, ?_, ?_, ?_, by decide, by decide, by decide⟩
  · constructor
    · rintro ⟨m, hm⟩
      rcases create_filter_cases s with ⟨hE, hc⟩ | ⟨hnE, hO, hc⟩ |
        ⟨hnE, hnO, hGT, hsub⟩ | ⟨hnE, hnO, hGT, hc⟩
      · rw [hm] at hc; exact absurd hc (by simp)
      · rw [hm] at hc; exact absurd hc (by simp)
      · rcases hsub with ⟨t, r, hx, hc⟩ | ⟨hx, hc⟩
        · rw [hm] at hc; exact absurd hc (by simp)
        · exact Or.inr ⟨hGT, hx⟩
      · exact Or.inl ⟨hnE, hnO, hGT⟩
    · rintro (⟨hnE, hnO, hGT⟩ | ⟨hGT, hx⟩)
      · rcases create_filter_cases s with ⟨hE, hc⟩ | ⟨-, hO, hc⟩ |
          ⟨-, -, hGT2, hsub⟩ | ⟨-, -, -, hc⟩
        · exact absurd hE hnE
        · exact absurd hO hnO
        · rw [hGT] at hGT2; exact absurd hGT2 (by decide)
        · exact ⟨_, hc⟩
      · rcases create_filter_cases s with ⟨hE, hc⟩ | ⟨-, hO, hc⟩ |
          ⟨-, -, hGT2, hsub⟩ | ⟨-, -, hGT2, hc⟩
        · rw [hE] at hGT; exact absurd hGT (by decide)
        · rw [hO] at hGT; exact absurd hGT (by decide)
        · rcases hsub with ⟨t, r, hx2, hc⟩ | ⟨-, hc⟩
          · rw [hx] at hx2; exact absurd hx2 (by simp)
          · exact ⟨_, hc⟩
        · rw [hGT] at hGT2; exact absurd hGT2 (by decide)
  · intro hnE hnO hGT
    rcases create_filter_cases s with ⟨hE, hc⟩ | ⟨-, hO, hc⟩ |
      ⟨-, -, hGT2, -⟩ | ⟨-, -, -, hc⟩
    · exact absurd hE hnE
    · exact absurd hO hnO
    · rw [hGT] at hGT2; exact absurd hGT2 (by decide)
    · exact ⟨hc, "Unknown filter: ".toList, (String.data_append _ _).symm⟩
  · intro hGT hx
    rcases create_filter_cases s with ⟨hE, hc⟩ | ⟨-, hO, hc⟩ |
      ⟨-, -, -, hsub⟩ | ⟨-, -, hGT2, hc⟩
    · exact absurd (gt_token_ne_even hGT) (fun h => h hE)
    · exact absurd (gt_token_ne_odd hGT) (fun h => h hO)
    · rcases hsub with ⟨t, r, hx2, hc⟩ | ⟨-, hc⟩
      · rw [hx] at hx2; exact absurd hx2 (by simp)
      · exact hc
    · rw [hGT] at hGT2; exact absurd hGT2 (by decide)
  · constructor
    · rintro ⟨m, hm⟩
      rcases create_filter_registry_cases s with ⟨hE, hc⟩ |
        ⟨hE, hGT, hsub⟩ | ⟨hE, hGT, hO, hc⟩ | ⟨hE, hGT, hO, hc⟩
      · rw [hm] at hc; exact absurd hc (by simp)
      · rcases hsub with ⟨t, r, hx, hc⟩ | ⟨hx, hc⟩
        · rw [hm] at hc; exact absurd hc (by simp)
        · exact Or.inr ⟨hGT, hx⟩
      · rw [hm] at hc; exact absurd hc (by simp)
      · exact Or.inl ⟨hE, hO, hGT⟩
    · rintro (⟨hE, hO, hGT⟩ | ⟨hGT, hx⟩)
      · rcases create_filter_registry_cases s with ⟨hE2, hc⟩ |
          ⟨-, hGT2, hsub⟩ | ⟨-, -, hO2, hc⟩ | ⟨-, -, -, hc⟩
        · rw [hE] at hE2; exact absurd hE2 (by decide)
        · rw [hGT] at hGT2; exact absurd hGT2 (by decide)
        · rw [hO] at hO2; exact absurd hO2 (by decide)
        · exact ⟨_, hc⟩
      · rcases create_filter_registry_cases s with ⟨hE2, hc⟩ |
          ⟨-, hGT2, hsub⟩ | ⟨-, hGT2, hO2, hc⟩ | ⟨-, hGT2, -, hc⟩
        · rw [gt_prefix_false_of_even hE2] at hGT
          exact absurd hGT (by decide)
        · rcases hsub with ⟨t, r, hx2, hc⟩ | ⟨-, hc⟩
          · rw [hx] at hx2; exact absurd hx2 (by simp)
          · exact ⟨_, hc⟩
        · rw [hGT] at hGT2; exact absurd hGT2 (by decide)
        · rw [hGT] at hGT2; exact absurd hGT2 (by decide)
  · intro hE hO hGT
    rcases create_filter_registry_cases s with ⟨hE2, hc⟩ |
      ⟨-, hGT2, hsub⟩ | ⟨-, -, hO2, hc⟩ | ⟨-, -, -, hc⟩
    · rw [hE] at hE2; exact absurd hE2 (by decide)
    · rw [hGT] at hGT2; exact absurd hGT2 (by decide)
    · rw [hO] at hO2; exact absurd hO2 (by decide)
    · exact ⟨hc, "Unknown filter: ".toList, (String.data_append _ _).symm⟩
  · intro hGT hx
    rcases create_filter_registry_cases s with ⟨hE2, hc⟩ |
      ⟨-, hGT2, hsub⟩ | ⟨-, hGT2, -, hc⟩ | ⟨-, hGT2, -, hc⟩
    · rw [gt_prefix_false_of_even hE2] at hGT
      exact absurd hGT (by decide)
    · rcases hsub with ⟨t, r, hx2, hc⟩ | ⟨-, hc⟩
      · rw [hx] at hx2; exact absurd hx2 (by simp)
      · exact ⟨hc, "Invalid GT filter format: ".toList,
          (String.data_append _ _).symm⟩
    · rw [hGT] at hGT2; exact absurd hGT2 (by decide)
    · rw [hGT] at hGT2; exact absurd hGT2 (by decide)

/-- C3 counterexample: with the valid token "EVEN" and an unopenable
source, the if-chain program (`number_pipeline.cpp`) prints an Error
diagnostic to standard error but proceeds with the empty sequence and
exits 0 after the zero-count summary — not 2 as claimed. -/
theorem main_np_exit_zero_on_unreadable_source :
    main_np "EVEN" "numbers.txt" none
      = (0, ["Total numbers passed filter: 0"],
         ["Error: Cannot open file numbers.txt"])
    ∧ (main_np "EVEN" "numbers.txt" none).1 ≠ 2 :=
  ⟨by decide, by decide⟩

/-- C3 (amended): called with exactly two arguments, a filter-token
parse error makes both programs exit 2 with an "Error: <message>" line
on standard error and nothing on standard output; an unopenable source
makes the registry program exit 2 with such a line, while the if-chain
program prints an "Error: ..." diagnostic to standard error but
continues with the empty sequence and exits 0 after the zero-count
summary; when no error occurs both exit 0 after the kept values and
the count summary. -/
theorem main_exit_code_classification (tok fname : String)
    (file : Option String) :
    (∀ m, create_filter tok = .error m →
       main_np tok fname file = (2, [], ["Error: " ++ m]))
    ∧ (∀ f, create_filter tok = .ok f → file = none →
       main_np tok fname file
         = (0, ["Total numbers passed filter: 0"],
            ["Error: Cannot open file " ++ fname]))
    ∧ (∀ f content, create_filter tok = .ok f → file = some content →
       main_np tok fname file
         = (0, (processor_run (keep f) (read_numbers content)
                 ⟨[], 0⟩).stdoutLines, []))
    ∧ (∀ m, create_filter_registry tok = .error m →
       main_registry tok fname file = (2, [], ["Error: " ++ m]))
    ∧ (∀ f, create_filter_registry tok = .ok f → file = none →
       main_registry tok fname file
         = (2, [], ["Error: " ++ ("Cannot open file: " ++ fname)]))
    ∧ (∀ f content, create_filter_registry tok = .ok f →
       file = some content →
       main_registry tok fname file
         = (0, (processor_run (keep f) (read_numbers content)
                 ⟨[], 0⟩).stdoutLines, [])) := by
  refine ⟨?_, ?_, ?_, ?_, ?_, ?_⟩
  · intro m hm
    unfold main_np
    rw [hm]
  · intro f hf hfile
    subst hfile
    unfold main_np
    rw [hf]
    rfl
  · intro f content hf hfile
    subst hfile
    unfold main_np
    rw [hf]
  · intro m hm
    unfold main_registry
    rw [hm]
  · intro f hf hfile
    subst hfile
    unfold main_registry
    rw [hf]
  · intro f content hf hfile
    subst hfile
    unfold main_registry
    rw [hf]

/-- C10 counterexample: on the token "EVENX" the if-chain factory
signals an unknown-filter error while the registry factory
prefix-matches the key "EVEN" and constructs the even filter: the two
factories disagree. -/
theorem factories_disagree_on_evenx :
    create_filter "EVENX" = .error ("Unknown filter: " ++ "EVENX")
    ∧ create_filter_registry "EVENX" = .ok .even :=
  ⟨by decide, by decide⟩

/-- The two factories produce the same outcome on a token: the same
constructed filter, or errors of the same kind (unknown-filter versus
invalid-argument, told apart by the message's fixed opening). -/
def sameOutcome (s : String) : Prop :=
  match create_filter s, create_filter_registry s with
  | .ok f1, .ok f2 => f1 = f2
  | .error m1, .error m2 =>
      "Unknown".toList.isPrefixOf m1.toList
        = "Unknown".toList.isPrefixOf m2.toList
  | _, _ => False

/-- C10 (amended): the if-chain and the registry factory agree — same
filter, or errors of the same kind — on every token that is not a
proper extension of "EVEN" or of "ODD"; on those tokens (such as
"EVENX") the if-chain factory signals an unknown-filter error while
the registry factory constructs the even or odd filter. -/
theorem factories_agree_outside_even_odd_extensions (s : String)
    (hE : ¬("EVEN".toList.isPrefixOf s.toList = true ∧ s ≠ "EVEN"))
    (hO : ¬("ODD".toList.isPrefixOf s.toList = true ∧ s ≠ "ODD")) :
    sameOutcome s := by
  rcases create_filter_cases s with ⟨hE1, hc⟩ | ⟨hnE1, hO1, hc⟩ |
    ⟨hnE1, hnO1, hGT1, hsub⟩ | ⟨hnE1, hnO1, hGT1, hc⟩
  · subst hE1
    exact rfl
  · subst hO1
    exact rfl
  · rcases create_filter_registry_cases s with ⟨hE2, hc2⟩ |
      ⟨hE2, hGT2, hsub2⟩ | ⟨hE2, hGT2, hO2, hc2⟩ | ⟨hE2, hGT2, hO2, hc2⟩
    · rw [even_prefix_false_of_gt hGT1] at hE2
      exact absurd hE2 (by decide)
    · rcases hsub with ⟨t, r, hx, hc⟩ | ⟨hx, hc⟩
      · rcases hsub2 with ⟨t2, r2, hx2, hc2⟩ | ⟨hx2, hc2⟩
        · rw [hx] at hx2
          simp only [Option.some.injEq, Prod.mk.injEq] at hx2
          unfold sameOutcome
          rw [hc, hc2, hx2.1]
        · rw [hx] at hx2
          exact absurd hx2 (by simp)
      · rcases hsub2 with ⟨t2, r2, hx2, hc2⟩ | ⟨hx2, hc2⟩
        · rw [hx] at hx2
          exact absurd hx2 (by simp)
        · unfold sameOutcome
          rw [hc, hc2]
          rfl
    · rw [odd_prefix_false_of_gt hGT1] at hO2
      exact absurd hO2 (by decide)
    · rw [hGT1] at hGT2
      exact absurd hGT2 (by decide)
  · rcases create_filter_registry_cases s with ⟨hE2, hc2⟩ |
      ⟨hE2, hGT2, hsub2⟩ | ⟨hE2, hGT2, hO2, hc2⟩ | ⟨hE2, hGT2, hO2, hc2⟩
    · exact absurd ⟨hE2, hnE1⟩ hE
    · rw [hGT1] at hGT2
      exact absurd hGT2 (by decide)
    · exact absurd ⟨hO2, hnO1⟩ hO
    · unfold sameOutcome
      rw [hc, hc2]

theorem factories_agree_witness : sameOutcome "GT7" :=
  factories_agree_outside_even_odd_extensions "GT7" (by decide) (by decide)

end NumberPipeline
